import Mathlib

/-!
Verification of the GBA save sync tool (`main_sync_script.py`).

Shallow embedding conventions:
* Python strings are modelled as `List Char` (`PyStr`); the Python codepoint
  lexicographic string order coincides with the lexicographic order on `List Char`.
* Python `float` modification times are modelled as `ℚ`; all values appearing in
  the program and its spec (`1.0`, `100.5`, …) are exactly representable.
* A Python dict is modelled as an insertion-ordered association list
  (`dictInsert` overwrites in place like `d[k] = v`, `dictGet` is `d.get(k)`).
* The filesystem is passed in explicitly: a directory is either absent (`none`,
  `os.path.isdir` false) or a listing of entries, each carrying the data the
  scanner reads from the OS (`os.path.isfile`, `os.path.getmtime`; a `none`
  mtime models the `OSError` branch).
* The external conversion subprocess is an oracle mapping each invocation
  (script, input, output) to an outcome (launch failure, or exit code with
  captured stdout/stderr).
-/

set_option allowUnsafeReducibility true in
attribute [semireducible] Rat.mul Rat.sub Rat.inv Rat.add Rat.div Rat.neg

abbrev PyStr := List Char

/-- Python `abs` on our rational model of floats. -/
def pyAbs (q : ℚ) : ℚ := if q < 0 then -q else q

/-- Python `str.lower()`; `Char.toLower` is exactly the Python ASCII case mapping. -/
def pyLower (s : PyStr) : PyStr := s.map Char.toLower

/-- Python `str.strip()` (trim whitespace from both ends). -/
def pyStrip (s : PyStr) : PyStr :=
  (s.dropWhile Char.isWhitespace).reverse.dropWhile Char.isWhitespace |>.reverse

/-- Python string `x or y`: gives `y` when `x` is empty. -/
def pyOrElse (x y : PyStr) : PyStr := if x = [] then y else x

/-- Python `filename.startswith("._")`. -/
def startsDotUnderscore : PyStr → Bool
  | '.' :: '_' :: _ => true
  | _ => false

/-- Decompose `s` at its LAST `'.'`: `some (stem, dotted-tail)` with no `'.'`
in the tail past the leading dot, or `none` when `s` has no `'.'`. -/
def lastDotSplit : PyStr → Option (PyStr × PyStr)
  | [] => none
  | c :: rest =>
    match lastDotSplit rest with
    | some (stem, ext) => some (c :: stem, ext)
    | none => if c = '.' then some ([], c :: rest) else none

/-- CPython `os.path.splitext` restricted to a path component with no slash:
splits at the last dot unless every character before it is a dot
(the leading-dots rule of CPython `genericpath._splitext`). -/
def splitextFile (s : PyStr) : PyStr × PyStr :=
  match lastDotSplit s with
  | none => (s, [])
  | some (stem, ext) => if stem.all (fun c => c = '.') then (s, []) else (stem, ext)

/-- Split a POSIX path at its last `'/'` into (directory part including the
slash, final component). -/
def splitSlash : PyStr → PyStr × PyStr
  | [] => ([], [])
  | c :: rest =>
    if '/' ∈ rest then
      let p := splitSlash rest
      (c :: p.1, p.2)
    else if c = '/' then ([c], rest)
    else ([], c :: rest)

/-- POSIX `os.path.basename`. -/
def pyBasename (p : PyStr) : PyStr := (splitSlash p).2

/-- POSIX `os.path.splitext`: the extension split only applies to the part
after the last slash. -/
def splitext (p : PyStr) : PyStr × PyStr :=
  let sb := splitSlash p
  let se := splitextFile sb.2
  (sb.1 ++ se.1, se.2)

/-- POSIX `os.path.join(a, b)` with two components. -/
def pathJoin (a b : PyStr) : PyStr :=
  if b.head? = some '/' then b
  else if a = [] ∨ a.getLast? = some '/' then a ++ b
  else a ++ '/' :: b

/-- The metadata the scanner reads for one `os.listdir` entry. -/
structure DirEntry where
  name : PyStr
  isFile : Bool
  mtime : Option ℚ
deriving DecidableEq, Repr

/-- One value of the scanner result dict:
`{'path': ..., 'mtime': ..., 'ext': ...}`. -/
structure FileRecord where
  path : PyStr
  mtime : ℚ
  ext : PyStr
deriving DecidableEq, Repr

/-- A Python dict keyed by strings, as an insertion-ordered association list. -/
abbrev Snapshot := List (PyStr × FileRecord)

/-- Python dict assignment `d[k] = v`: overwrite in place, else append. -/
def dictInsert (k : PyStr) (v : FileRecord) : Snapshot → Snapshot
  | [] => [(k, v)]
  | (k', v') :: rest =>
    if k' = k then (k, v) :: rest else (k', v') :: dictInsert k v rest

/-- Python dict lookup `d.get(k)`. -/
def dictGet (k : PyStr) : Snapshot → Option FileRecord
  | [] => none
  | (k', v') :: rest => if k' = k then some v' else dictGet k rest

/-- Python dict `d.keys()`. -/
def dictKeys (s : Snapshot) : List PyStr := s.map Prod.fst

def savExt : PyStr := ".sav".toList
def srmExt : PyStr := ".srm".toList
def gbaTag : PyStr := ".gba".toList

/-- Processing of a single `os.listdir` entry in the loop body of `get_file_info`. -/
def scanEntry (directory_path : PyStr) (extensions : List PyStr)
    (acc : Snapshot) (f : DirEntry) : Snapshot :=
  if startsDotUnderscore f.name then acc
  else
    let ne := splitext f.name
    if extensions ≠ [] ∧ pyLower ne.2 ∉ extensions.map pyLower then acc
    else
      let tb :=
        if pyLower ne.2 = savExt ∧ gbaTag <:+ pyLower ne.1 then (splitext ne.1).1
        else ne.1
      if f.isFile then
        match f.mtime with
        | some m =>
            dictInsert (pyLower tb)
              ⟨pathJoin directory_path f.name, m, pyLower ne.2⟩ acc
        | none => acc
      else acc

/-- The scanner `get_file_info(directory_path, extensions)`; `listing = none` models
`os.path.isdir(directory_path)` being false. -/
def get_file_info (directory_path : PyStr) (listing : Option (List DirEntry))
    (extensions : List PyStr) : Snapshot :=
  match listing with
  | none => []
  | some fs => fs.foldl (scanEntry directory_path extensions) []

/-- One entry of the conflicts list of `differences`; the field `loc` models
the dict key named local (a Lean keyword). -/
structure Conflict where
  basename : PyStr
  sd : FileRecord
  loc : FileRecord
deriving DecidableEq, Repr

/-- The `differences` dict built by `compare_folders`. -/
structure Differences where
  sd_only : List FileRecord
  local_only : List FileRecord
  conflicts : List Conflict
deriving DecidableEq, Repr

/-- Python `sorted(list(set(sd).union(local)))`: the distinct keys of both
snapshots in lexicographic string order. -/
def sortedKeys (sd_info local_info : Snapshot) : List PyStr :=
  List.insertionSort (fun x y : PyStr => x ≤ y)
    ((dictKeys sd_info ++ dictKeys local_info).dedup)

/-- The body of the `compare_folders` loop for one basename. -/
def compareStep (sd_info local_info : Snapshot) (d : Differences) (basename : PyStr) :
    Differences :=
  match dictGet basename sd_info, dictGet basename local_info with
  | some sd_file, none => { d with sd_only := d.sd_only ++ [sd_file] }
  | none, some local_file => { d with local_only := d.local_only ++ [local_file] }
  | some sd_file, some local_file =>
    if 1 < pyAbs (sd_file.mtime - local_file.mtime) ∨ sd_file.ext ≠ local_file.ext then
      { d with conflicts := d.conflicts ++ [⟨basename, sd_file, local_file⟩] }
    else d
  | none, none => d

/-- The comparator `compare_folders(sd_info, local_info)`. -/
def compare_folders (sd_info local_info : Snapshot) : Differences :=
  (sortedKeys sd_info local_info).foldl (compareStep sd_info local_info) ⟨[], [], []⟩

-- Conversion invoker ---------------------------------------------------------

/-- Outcome of attempting to launch the external conversion subprocess. -/
inductive ToolOutcome where
  /-- The script file is absent / not a regular file (`FileNotFoundError`). -/
  | missing
  /-- Python `subprocess.run` itself raised; carries the exception text. -/
  | launchFail (msg : PyStr)
  /-- The child ran to completion with this exit code and captured streams. -/
  | ran (returncode : Int) (stdout stderr : PyStr)
deriving DecidableEq, Repr

/-- The `RuntimeError` message built for a nonzero exit status. -/
def conversionFailedMsg (script_name input_path output_path stdout stderr : PyStr) : PyStr :=
  "Conversion failed for ".toList ++ pyBasename input_path ++ " -> ".toList ++
    pyBasename output_path ++ "  using ".toList ++ script_name ++ ".\n".toList ++
    "Stderr: ".toList ++ pyOrElse (pyStrip stderr) "No Stderr".toList ++ "\n".toList ++
    "Stdout: ".toList ++ pyOrElse (pyStrip stdout) "No Stdout".toList

/-- The `IOError` wrapper applied by the except clause of `_run_conversion_script`. -/
def failedCmdMsg (e : PyStr) : PyStr := "Failed to run conversion command: ".toList ++ e

/-- The invoker `_run_conversion_script(script_name, input_path, output_path)` given the
subprocess outcome; `.error` carries the message of the raised exception. -/
def run_conversion_script (scripts_dir script_name input_path output_path : PyStr) :
    ToolOutcome → Except PyStr PyStr
  | .missing =>
    .error ("External conversion script not found: ".toList ++
      pathJoin scripts_dir script_name)
  | .launchFail m => .error (failedCmdMsg m)
  | .ran rc out err =>
    if rc ≠ 0 then
      .error (failedCmdMsg (conversionFailedMsg script_name input_path output_path out err))
    else .ok output_path

-- Sync directors -------------------------------------------------------------

def LOCAL_SAVES_PATH : PyStr :=
  "/home/deck/Documents/emulation/Emulation/saves/retroarch/saves".toList
def SD_CARD_SAVES_PATH : PyStr := "/run/media/deck/MINUI/Saves/GBA".toList
def savToSrmScript : PyStr := "sav-to-srm.py".toList
def srmToSavScript : PyStr := "srm-to-sav.py".toList

/-- Per-call subprocess behaviour, keyed by (script, input, output). -/
abbrev Oracle := PyStr → PyStr → PyStr → ToolOutcome

/-- What the director did with one item (mirrors the printed messages). -/
inductive SyncAction where
  /-- only-list item converted successfully ("Copied ..."). -/
  | copied (input target : PyStr)
  /-- only-list item whose conversion raised; carries the exception text. -/
  | copyError (input target e : PyStr)
  /-- conflict resolved by converting the newer side ("Resolved conflict ..."). -/
  | resolved (basename input target : PyStr)
  /-- conflict conversion raised; carries the exception text. -/
  | resolveError (basename e : PyStr)
  /-- "Skipping ...: already exists ... with similar modification time". -/
  | skipSynced (basename : PyStr)
  /-- "Skipping ...: other side appears newer or preferred". -/
  | skipOtherSide (basename : PyStr)
deriving DecidableEq, Repr

/-- Target path for an SD-only file in `sync_sd_to_local`:
double `splitext` of the basename, then `.srm` in the local folder. -/
def sdOnlyTarget (f : FileRecord) : PyStr :=
  pathJoin LOCAL_SAVES_PATH ((splitext (splitext (pyBasename f.path)).1).1 ++ srmExt)

/-- Target path for a conflict resolved towards the local folder. -/
def conflictLocalTarget (basename : PyStr) : PyStr :=
  pathJoin LOCAL_SAVES_PATH (basename ++ srmExt)

/-- Target path for a local-only file in `sync_local_to_sd`:
single `splitext` of the basename, then `.gba.sav` on the card. -/
def localOnlyTarget (f : FileRecord) : PyStr :=
  pathJoin SD_CARD_SAVES_PATH ((splitext (pyBasename f.path)).1 ++ gbaTag ++ savExt)

/-- Target path for a conflict resolved towards the SD card. -/
def conflictSdTarget (basename : PyStr) : PyStr :=
  pathJoin SD_CARD_SAVES_PATH (basename ++ gbaTag ++ savExt)

/-- Director `sync_sd_to_local`: returns the per-item action trace and the final
`processed_count`. -/
def sync_sd_to_local (scripts_dir : PyStr) (oracle : Oracle) (differences : Differences) :
    List SyncAction × Nat :=
  let step1 := differences.sd_only.foldl
    (fun (acc : List SyncAction × Nat) sd_file =>
      let target := sdOnlyTarget sd_file
      match run_conversion_script scripts_dir savToSrmScript sd_file.path target
          (oracle savToSrmScript sd_file.path target) with
      | .ok _ => (acc.1 ++ [.copied sd_file.path target], acc.2 + 1)
      | .error e => (acc.1 ++ [.copyError sd_file.path target e], acc.2))
    ([], 0)
  differences.conflicts.foldl
    (fun (acc : List SyncAction × Nat) c =>
      if c.loc.mtime < c.sd.mtime then
        let target := conflictLocalTarget c.basename
        match run_conversion_script scripts_dir savToSrmScript c.sd.path target
            (oracle savToSrmScript c.sd.path target) with
        | .ok _ => (acc.1 ++ [.resolved c.basename c.sd.path target], acc.2 + 1)
        | .error e => (acc.1 ++ [.resolveError c.basename e], acc.2)
      else if c.sd.ext = savExt ∧ c.loc.ext = srmExt ∧
          pyAbs (c.sd.mtime - c.loc.mtime) ≤ 1 then
        (acc.1 ++ [.skipSynced c.basename], acc.2)
      else (acc.1 ++ [.skipOtherSide c.basename], acc.2))
    step1

/-- Director `sync_local_to_sd`: returns the per-item action trace and the final
`processed_count`. -/
def sync_local_to_sd (scripts_dir : PyStr) (oracle : Oracle) (differences : Differences) :
    List SyncAction × Nat :=
  let step1 := differences.local_only.foldl
    (fun (acc : List SyncAction × Nat) local_file =>
      let target := localOnlyTarget local_file
      match run_conversion_script scripts_dir srmToSavScript local_file.path target
          (oracle srmToSavScript local_file.path target) with
      | .ok _ => (acc.1 ++ [.copied local_file.path target], acc.2 + 1)
      | .error e => (acc.1 ++ [.copyError local_file.path target e], acc.2))
    ([], 0)
  differences.conflicts.foldl
    (fun (acc : List SyncAction × Nat) c =>
      if c.sd.mtime < c.loc.mtime then
        let target := conflictSdTarget c.basename
        match run_conversion_script scripts_dir srmToSavScript c.loc.path target
            (oracle srmToSavScript c.loc.path target) with
        | .ok _ => (acc.1 ++ [.resolved c.basename c.loc.path target], acc.2 + 1)
        | .error e => (acc.1 ++ [.resolveError c.basename e], acc.2)
      else if c.sd.ext = savExt ∧ c.loc.ext = srmExt ∧
          pyAbs (c.sd.mtime - c.loc.mtime) ≤ 1 then
        (acc.1 ++ [.skipSynced c.basename], acc.2)
      else (acc.1 ++ [.skipOtherSide c.basename], acc.2))
    step1

-- Characterization helpers and concrete fixtures ------------------------------

/-- Swap the two record fields of a conflict (for the symmetry property). -/
def swapConflict (c : Conflict) : Conflict := ⟨c.basename, c.loc, c.sd⟩

/-- What one key contributes to `sd_only` in `compare_folders`. -/
def onlyAFun (sd_info local_info : Snapshot) (b : PyStr) : Option FileRecord :=
  match dictGet b sd_info, dictGet b local_info with
  | some r, none => some r
  | _, _ => none

/-- What one key contributes to `local_only` in `compare_folders`. -/
def onlyBFun (sd_info local_info : Snapshot) (b : PyStr) : Option FileRecord :=
  match dictGet b sd_info, dictGet b local_info with
  | none, some r => some r
  | _, _ => none

/-- What one key contributes to `conflicts` in `compare_folders`. -/
def confFun (sd_info local_info : Snapshot) (b : PyStr) : Option Conflict :=
  match dictGet b sd_info, dictGet b local_info with
  | some ra, some rb =>
    if 1 < pyAbs (ra.mtime - rb.mtime) ∨ ra.ext ≠ rb.ext then some ⟨b, ra, rb⟩ else none
  | _, _ => none

/-- Whether a sync action is a conversion attempt on a conflict item. -/
def attemptsConversion : SyncAction → Bool
  | .resolved _ _ _ => true
  | .resolveError _ _ => true
  | _ => false

def marioKey : PyStr := "mario".toList

/-- Oracle under which every conversion subprocess exits 0. -/
def okOracle : Oracle := fun _ _ _ => .ran 0 [] []

def rMarioSdW : FileRecord :=
  ⟨"/run/media/deck/MINUI/Saves/GBA/mario.gba.sav".toList, 100, savExt⟩
def rMarioLocW : FileRecord :=
  ⟨"/home/deck/Documents/emulation/Emulation/saves/retroarch/saves/mario.srm".toList,
    100, srmExt⟩
def snapAW : Snapshot := [(marioKey, rMarioSdW)]
def snapBW : Snapshot := [(marioKey, rMarioLocW)]

def rC2sd : FileRecord :=
  ⟨"/run/media/deck/MINUI/Saves/GBA/mario.gba.sav".toList, 100, savExt⟩
def rC2loc : FileRecord :=
  ⟨"/home/deck/Documents/emulation/Emulation/saves/retroarch/saves/mario.srm".toList,
    201/2, srmExt⟩
def snapC2A : Snapshot := [(marioKey, rC2sd)]
def snapC2B : Snapshot := [(marioKey, rC2loc)]

/-- Conflict where SD is newer by 0.5 s (within ε) and extensions are the
card-native/local-native pair. -/
def cflC3 : Conflict :=
  ⟨marioKey, ⟨"/run/media/deck/MINUI/Saves/GBA/mario.gba.sav".toList, 201/2, savExt⟩,
    ⟨"/home/deck/Documents/emulation/Emulation/saves/retroarch/saves/mario.srm".toList,
      100, srmExt⟩⟩

/-- Conflict where SD is older by 0.5 s (within ε), sav/srm extensions. -/
def cflC3skip : Conflict :=
  ⟨marioKey, ⟨"/run/media/deck/MINUI/Saves/GBA/mario.gba.sav".toList, 100, savExt⟩,
    ⟨"/home/deck/Documents/emulation/Emulation/saves/retroarch/saves/mario.srm".toList,
      201/2, srmExt⟩⟩

/-- Conflict with SD mtime 200 and local mtime 100. -/
def cflC4 : Conflict :=
  ⟨marioKey, ⟨"/run/media/deck/MINUI/Saves/GBA/mario.gba.sav".toList, 200, savExt⟩,
    ⟨"/home/deck/Documents/emulation/Emulation/saves/retroarch/saves/mario.srm".toList,
      100, srmExt⟩⟩

def f1W : FileRecord := ⟨"/run/media/deck/MINUI/Saves/GBA/alpha.gba.sav".toList, 10, savExt⟩
def f2W : FileRecord := ⟨"/run/media/deck/MINUI/Saves/GBA/beta.gba.sav".toList, 20, savExt⟩
def errW : PyStr := " boom \n".toList
def outW : PyStr := "  tool output ".toList

/-- Oracle that fails (exit 1) on the `f1W` conversion and succeeds elsewhere. -/
def oracleW : Oracle := fun _ i _ => if i = f1W.path then .ran 1 outW errW else .ran 0 [] []

def dotGbaSavName : PyStr := ".gba.sav".toList
def myGameGbaSav : DirEntry := ⟨"my_game.gba.sav".toList, true, some 3⟩
def myGameSrm : DirEntry := ⟨"my_game.srm".toList, true, some 3⟩
def myGameKey : PyStr := "my_game".toList

def upperEntry : DirEntry := ⟨"GAME.GBA.SAV".toList, true, some 7⟩
def lowerEntry : DirEntry := ⟨"game.gba.sav".toList, true, some 7⟩
def snapUpperW : Snapshot := get_file_info SD_CARD_SAVES_PATH (some [upperEntry]) [savExt]
def snapLowerW : Snapshot := get_file_info "/tmp/other".toList (some [lowerEntry]) [savExt]

-- Helper lemmas ---------------------------------------------------------------

theorem pyAbs_eq_abs (q : ℚ) : pyAbs q = |q| := by
  unfold pyAbs
  rcases lt_or_ge q 0 with h | h
  · rw [if_pos h, abs_of_neg h]
  · rw [if_neg (not_lt.mpr h), abs_of_nonneg h]

theorem pyAbs_sub_comm (a b : ℚ) : pyAbs (a - b) = pyAbs (b - a) := by
  rw [pyAbs_eq_abs, pyAbs_eq_abs, abs_sub_comm]

theorem toLower_toLower (c : Char) : c.toLower.toLower = c.toLower := by
  unfold Char.toLower
  by_cases h : c.toNat ≥ 65 ∧ c.toNat ≤ 90
  · simp only [if_pos h]
    have hv : (Char.ofNat (c.toNat + 32)).toNat = c.toNat + 32 := by
      rw [Char.ofNat, dif_pos]
      · rfl
      · exact Or.inl (by omega)
    rw [if_neg]
    omega
  · simp only [if_neg h]

theorem toLower_eq_dot (c : Char) : c.toLower = '.' ↔ c = '.' := by
  constructor
  · intro h
    unfold Char.toLower at h
    by_cases hc : c.toNat ≥ 65 ∧ c.toNat ≤ 90
    · rw [if_pos hc] at h
      have h1 : (Char.ofNat (c.toNat + 32)).toNat = c.toNat + 32 := by
        rw [Char.ofNat, dif_pos]
        · rfl
        · exact Or.inl (by omega)
      have h2 : (Char.ofNat (c.toNat + 32)).toNat = ('.' : Char).toNat := by rw [h]
      have h3 : ('.' : Char).toNat = 46 := by decide
      rw [h1, h3] at h2
      omega
    · rwa [if_neg hc] at h
  · intro h; subst h; decide

theorem pyLower_pyLower (s : PyStr) : pyLower (pyLower s) = pyLower s := by
  unfold pyLower
  rw [List.map_map]
  exact List.map_congr_left (fun c _ => toLower_toLower c)

theorem pyLower_append (a b : PyStr) : pyLower (a ++ b) = pyLower a ++ pyLower b :=
  List.map_append _ a b

theorem dictGet_dictInsert (k k' : PyStr) (v : FileRecord) (l : Snapshot) :
    dictGet k (dictInsert k' v l) = if k' = k then some v else dictGet k l := by
  induction l with
  | nil => by_cases h : k' = k <;> simp [dictInsert, dictGet, h]
  | cons p rest ih =>
    obtain ⟨k2, v2⟩ := p
    by_cases h2 : k2 = k'
    · subst h2
      by_cases hk : k2 = k <;> simp [dictInsert, dictGet, hk]
    · by_cases hk : k2 = k
      · subst hk
        have hne : ¬ k' = k2 := fun h => h2 h.symm
        simp [dictInsert, dictGet, h2, hne]
      · simp [dictInsert, dictGet, h2, hk, ih]

theorem dictGet_mem_dictKeys {k : PyStr} {l : Snapshot} {r : FileRecord}
    (h : dictGet k l = some r) : k ∈ dictKeys l := by
  induction l with
  | nil => simp [dictGet] at h
  | cons p rest ih =>
    obtain ⟨k2, v2⟩ := p
    rw [dictGet] at h
    rw [dictKeys, List.map_cons]
    by_cases hk : k2 = k
    · exact hk ▸ List.mem_cons_self _ _
    · rw [if_neg hk] at h
      exact List.mem_cons_of_mem _ (ih h)

theorem sortedKeys_comm (a b : Snapshot) : sortedKeys a b = sortedKeys b a := by
  have h1 := List.sorted_insertionSort (fun x y : PyStr => x ≤ y)
    ((dictKeys a ++ dictKeys b).dedup)
  have h2 := List.sorted_insertionSort (fun x y : PyStr => x ≤ y)
    ((dictKeys b ++ dictKeys a).dedup)
  exact List.eq_of_perm_of_sorted
    ((List.perm_insertionSort _ _).trans
      ((List.perm_append_comm).dedup.trans (List.perm_insertionSort _ _).symm)) h1 h2

theorem mem_sortedKeys (a b : Snapshot) (k : PyStr) :
    k ∈ sortedKeys a b ↔ k ∈ dictKeys a ∨ k ∈ dictKeys b := by
  unfold sortedKeys
  rw [(List.perm_insertionSort _ _).mem_iff, List.mem_dedup, List.mem_append]

theorem compareStep_eq (A B : Snapshot) (d : Differences) (b : PyStr) :
    compareStep A B d b =
      ⟨d.sd_only ++ (onlyAFun A B b).toList,
       d.local_only ++ (onlyBFun A B b).toList,
       d.conflicts ++ (confFun A B b).toList⟩ := by
  unfold compareStep onlyAFun onlyBFun confFun
  cases hA : dictGet b A <;> cases hB : dictGet b B
  · simp
  · simp
  · simp
  · rename_i ra rb
    by_cases hc : 1 < pyAbs (ra.mtime - rb.mtime) ∨ ra.ext ≠ rb.ext
    · simp [hc]
    · simp [hc]

theorem foldl_compareStep (A B : Snapshot) (ks : List PyStr) (d : Differences) :
    ks.foldl (compareStep A B) d =
      ⟨d.sd_only ++ ks.filterMap (onlyAFun A B),
       d.local_only ++ ks.filterMap (onlyBFun A B),
       d.conflicts ++ ks.filterMap (confFun A B)⟩ := by
  induction ks generalizing d with
  | nil => simp
  | cons b ks ih =>
    rw [List.foldl_cons, compareStep_eq, ih]
    simp only [List.filterMap_cons]
    cases onlyAFun A B b <;> cases onlyBFun A B b <;> cases confFun A B b <;> simp

theorem compare_folders_eq (A B : Snapshot) :
    compare_folders A B =
      ⟨(sortedKeys A B).filterMap (onlyAFun A B),
       (sortedKeys A B).filterMap (onlyBFun A B),
       (sortedKeys A B).filterMap (confFun A B)⟩ := by
  unfold compare_folders
  rw [foldl_compareStep]
  simp

theorem onlyAFun_swap (A B : Snapshot) (b : PyStr) : onlyAFun B A b = onlyBFun A B b := by
  unfold onlyAFun onlyBFun
  cases dictGet b A <;> cases dictGet b B <;> rfl

theorem onlyBFun_swap (A B : Snapshot) (b : PyStr) : onlyBFun B A b = onlyAFun A B b := by
  unfold onlyAFun onlyBFun
  cases dictGet b A <;> cases dictGet b B <;> rfl

theorem confFun_swap (A B : Snapshot) (b : PyStr) :
    confFun B A b = (confFun A B b).map swapConflict := by
  unfold confFun
  cases hA : dictGet b A <;> cases hB : dictGet b B <;> simp only [hA, hB]
  · rfl
  · rfl
  · rfl
  · rename_i ra rb
    have hiff : (1 < pyAbs (rb.mtime - ra.mtime) ∨ rb.ext ≠ ra.ext) ↔
        (1 < pyAbs (ra.mtime - rb.mtime) ∨ ra.ext ≠ rb.ext) := by
      rw [pyAbs_sub_comm]
      exact or_congr Iff.rfl ne_comm
    by_cases h : 1 < pyAbs (ra.mtime - rb.mtime) ∨ ra.ext ≠ rb.ext
    · rw [if_pos (hiff.mpr h), if_pos h]; rfl
    · rw [if_neg (fun hh => h (hiff.mp hh)), if_neg h]; rfl

theorem mem_conflicts_iff (A B : Snapshot) (c : Conflict) :
    c ∈ (compare_folders A B).conflicts ↔
      dictGet c.basename A = some c.sd ∧ dictGet c.basename B = some c.loc ∧
        (1 < pyAbs (c.sd.mtime - c.loc.mtime) ∨ c.sd.ext ≠ c.loc.ext) := by
  rw [compare_folders_eq]
  simp only [List.mem_filterMap]
  constructor
  · rintro ⟨b, _, hf⟩
    unfold confFun at hf
    cases hA : dictGet b A <;> cases hB : dictGet b B <;> rw [hA, hB] at hf
    · exact absurd hf (by simp)
    · exact absurd hf (by simp)
    · exact absurd hf (by simp)
    · rename_i ra rb
      change (if 1 < pyAbs (ra.mtime - rb.mtime) ∨ ra.ext ≠ rb.ext then
        some (Conflict.mk b ra rb) else none) = some c at hf
      by_cases hcond : 1 < pyAbs (ra.mtime - rb.mtime) ∨ ra.ext ≠ rb.ext
      · rw [if_pos hcond] at hf
        cases hf
        exact ⟨hA, hB, hcond⟩
      · rw [if_neg hcond] at hf
        exact absurd hf (by simp)
  · rintro ⟨hA, hB, hcond⟩
    refine ⟨c.basename, ?_, ?_⟩
    · exact (mem_sortedKeys A B c.basename).mpr (Or.inl (dictGet_mem_dictKeys hA))
    · unfold confFun
      rw [hA, hB]
      change (if 1 < pyAbs (c.sd.mtime - c.loc.mtime) ∨ c.sd.ext ≠ c.loc.ext then
        some (Conflict.mk c.basename c.sd c.loc) else none) = some c
      rw [if_pos hcond]

theorem mem_sd_only_iff (A B : Snapshot) (r : FileRecord) :
    r ∈ (compare_folders A B).sd_only ↔
      ∃ k, dictGet k A = some r ∧ dictGet k B = none := by
  rw [compare_folders_eq]
  simp only [List.mem_filterMap]
  constructor
  · rintro ⟨b, _, hf⟩
    unfold onlyAFun at hf
    cases hA : dictGet b A <;> cases hB : dictGet b B <;> rw [hA, hB] at hf
    · exact absurd hf (by simp)
    · exact absurd hf (by simp)
    · cases hf
      exact ⟨b, hA, hB⟩
    · exact absurd hf (by simp)
  · rintro ⟨k, hA, hB⟩
    refine ⟨k, (mem_sortedKeys A B k).mpr (Or.inl (dictGet_mem_dictKeys hA)), ?_⟩
    unfold onlyAFun
    rw [hA, hB]

theorem mem_local_only_iff (A B : Snapshot) (r : FileRecord) :
    r ∈ (compare_folders A B).local_only ↔
      ∃ k, dictGet k B = some r ∧ dictGet k A = none := by
  rw [compare_folders_eq]
  simp only [List.mem_filterMap]
  constructor
  · rintro ⟨b, _, hf⟩
    unfold onlyBFun at hf
    cases hA : dictGet b A <;> cases hB : dictGet b B <;> rw [hA, hB] at hf
    · exact absurd hf (by simp)
    · cases hf
      exact ⟨b, hB, hA⟩
    · exact absurd hf (by simp)
    · exact absurd hf (by simp)
  · rintro ⟨k, hB, hA⟩
    refine ⟨k, (mem_sortedKeys A B k).mpr (Or.inr (dictGet_mem_dictKeys hB)), ?_⟩
    unfold onlyBFun
    rw [hA, hB]

theorem lastDotSplit_none {s : PyStr} (h : '.' ∉ s) : lastDotSplit s = none := by
  induction s with
  | nil => rfl
  | cons c rest ih =>
    have hc : ¬ (c = '.') := by
      intro hh
      exact h (by rw [hh]; exact List.mem_cons_self _ _)
    have hr : '.' ∉ rest := fun hh => h (List.mem_cons_of_mem c hh)
    unfold lastDotSplit
    rw [ih hr]
    simp [hc]

theorem lastDotSplit_append (u v : PyStr) (hv : '.' ∉ v) :
    lastDotSplit (u ++ '.' :: v) = some (u, '.' :: v) := by
  induction u with
  | nil =>
    show lastDotSplit ('.' :: v) = some ([], '.' :: v)
    unfold lastDotSplit
    rw [lastDotSplit_none hv]
    simp
  | cons c u' ih =>
    show lastDotSplit (c :: (u' ++ '.' :: v)) = some (c :: u', '.' :: v)
    unfold lastDotSplit
    rw [ih]

theorem splitSlash_noSlash {p : PyStr} (h : '/' ∉ p) : splitSlash p = ([], p) := by
  cases p with
  | nil => rfl
  | cons c rest =>
    have hc : ¬ (c = '/') := by
      intro hh
      exact h (by rw [hh]; exact List.mem_cons_self _ _)
    have hr : '/' ∉ rest := fun hh => h (List.mem_cons_of_mem c hh)
    unfold splitSlash
    rw [if_neg hr, if_neg hc]

theorem splitext_noSlash {p : PyStr} (h : '/' ∉ p) : splitext p = splitextFile p := by
  show ((splitSlash p).1 ++ (splitextFile (splitSlash p).2).1,
    (splitextFile (splitSlash p).2).2) = splitextFile p
  rw [splitSlash_noSlash h]
  simp

theorem scanEntry_dotUnderscore (dir : PyStr) (exts : List PyStr) (acc : Snapshot)
    (f : DirEntry) (h : startsDotUnderscore f.name = true) :
    scanEntry dir exts acc f = acc := by
  unfold scanEntry
  rw [if_pos h]

theorem scanEntry_ext_lowered (dir : PyStr) (exts : List PyStr) (acc : Snapshot)
    (f : DirEntry)
    (h : ∀ k r, dictGet k acc = some r → pyLower r.ext = r.ext) :
    ∀ k r, dictGet k (scanEntry dir exts acc f) = some r → pyLower r.ext = r.ext := by
  intro k r hget
  simp only [scanEntry] at hget
  split at hget
  · exact h k r hget
  · split at hget
    · exact h k r hget
    · split at hget
      · split at hget
        · rw [dictGet_dictInsert] at hget
          rcases ite_eq_iff.mp hget with ⟨_, he⟩ | ⟨_, he⟩
          · cases he
            exact pyLower_pyLower _
          · exact h k r he
        · exact h k r hget
      · exact h k r hget

theorem get_file_info_ext_lowered (dir : PyStr) (L : List DirEntry) (exts : List PyStr) :
    ∀ k r, dictGet k (get_file_info dir (some L) exts) = some r → pyLower r.ext = r.ext := by
  have main : ∀ (M : List DirEntry) (acc : Snapshot),
      (∀ k r, dictGet k acc = some r → pyLower r.ext = r.ext) →
      ∀ k r, dictGet k (M.foldl (scanEntry dir exts) acc) = some r → pyLower r.ext = r.ext := by
    intro M
    induction M with
    | nil => intro acc h; exact h
    | cons f M ih =>
      intro acc h
      rw [List.foldl_cons]
      exact ih _ (scanEntry_ext_lowered dir exts acc f h)
  exact main L [] (by intro k r h; simp [dictGet] at h)

-- Claim theorems --------------------------------------------------------------

/-- Claim C7: for every extensions filter, scanning a directory path that does
not exist (`os.path.isdir` false, modelled as `listing = none`) returns an
empty snapshot rather than raising an error. -/
theorem missing_directory_empty_c7 (dir : PyStr) (exts : List PyStr) :
    get_file_info dir none exts = [] := rfl

/-- Claim C8: for every directory listing and extensions filter, entries whose
name starts with the reserved metadata prefix "._" contribute nothing to the
snapshot: scanning the listing equals scanning the listing with all such
entries removed, so no such file ever appears in the snapshot. -/
theorem metadata_prefix_excluded_c8 (dir : PyStr) (L : List DirEntry)
    (exts : List PyStr) :
    get_file_info dir (some L) exts =
      get_file_info dir
        (some (L.filter (fun f => !startsDotUnderscore f.name))) exts := by
  show L.foldl (scanEntry dir exts) [] =
    (L.filter (fun f => !startsDotUnderscore f.name)).foldl (scanEntry dir exts) []
  generalize [] = acc
  induction L generalizing acc with
  | nil => rfl
  | cons f L ih =>
    rw [List.foldl_cons]
    cases h : startsDotUnderscore f.name
    · rw [List.filter_cons_of_pos (by simp [h]), List.foldl_cons]
      exact ih _
    · rw [scanEntry_dotUnderscore dir exts acc f h,
        List.filter_cons_of_neg (by simp [h])]
      exact ih _

/-- Claim C1: for every pair of snapshots and every comparison key present in
both, `compare_folders` classifies the pair as a conflict iff the absolute
difference of the two mtimes exceeds 1.0 second or the two extensions differ;
a pair within tolerance with equal extensions appears in none of the three
categories; and different extensions make a conflict even when the mtimes are
identical. -/
theorem conflict_classification_c1 (A B : Snapshot) (k : PyStr) (ra rb : FileRecord)
    (hA : dictGet k A = some ra) (hB : dictGet k B = some rb) :
    ((Conflict.mk k ra rb ∈ (compare_folders A B).conflicts) ↔
      (1 < pyAbs (ra.mtime - rb.mtime) ∨ ra.ext ≠ rb.ext)) ∧
    (ra.mtime = rb.mtime → ra.ext ≠ rb.ext →
      Conflict.mk k ra rb ∈ (compare_folders A B).conflicts) ∧
    (pyAbs (ra.mtime - rb.mtime) ≤ 1 → ra.ext = rb.ext →
      (∀ c ∈ (compare_folders A B).conflicts, c.basename ≠ k) ∧
      (∀ r ∈ (compare_folders A B).sd_only,
        ∃ k', k' ≠ k ∧ dictGet k' A = some r ∧ dictGet k' B = none) ∧
      (∀ r ∈ (compare_folders A B).local_only,
        ∃ k', k' ≠ k ∧ dictGet k' B = some r ∧ dictGet k' A = none)) := by
  have hiff := mem_conflicts_iff A B (Conflict.mk k ra rb)
  refine ⟨?_, ?_, ?_⟩
  · rw [hiff]
    constructor
    · rintro ⟨_, _, hc⟩
      exact hc
    · intro hc
      exact ⟨hA, hB, hc⟩
  · intro _ hne
    exact hiff.mpr ⟨hA, hB, Or.inr hne⟩
  · intro hle hext
    have hnc : ¬ (1 < pyAbs (ra.mtime - rb.mtime) ∨ ra.ext ≠ rb.ext) := by
      rintro (h1 | h2)
      · exact absurd h1 (not_lt.mpr hle)
      · exact h2 hext
    refine ⟨?_, ?_, ?_⟩
    · intro c hcmem hbase
      rcases (mem_conflicts_iff A B c).mp hcmem with ⟨hA', hB', hc'⟩
      rw [hbase] at hA' hB'
      have e1 : ra = c.sd := Option.some.inj (hA.symm.trans hA')
      have e2 : rb = c.loc := Option.some.inj (hB.symm.trans hB')
      rw [← e1, ← e2] at hc'
      exact hnc hc'
    · intro r hr
      rcases (mem_sd_only_iff A B r).mp hr with ⟨k', h1, h2⟩
      refine ⟨k', ?_, h1, h2⟩
      intro hkk
      rw [hkk, hB] at h2
      exact Option.noConfusion h2
    · intro r hr
      rcases (mem_local_only_iff A B r).mp hr with ⟨k', h1, h2⟩
      refine ⟨k', ?_, h1, h2⟩
      intro hkk
      rw [hkk, hA] at h2
      exact Option.noConfusion h2

/-- Witness for C1 at a concrete input: the mario pair with identical mtimes
and differing extensions is classified as a conflict. -/
theorem conflict_classification_c1_w :
    dictGet marioKey snapAW = some rMarioSdW ∧
    dictGet marioKey snapBW = some rMarioLocW ∧
    Conflict.mk marioKey rMarioSdW rMarioLocW ∈ (compare_folders snapAW snapBW).conflicts :=
  ⟨by decide, by decide,
    ((conflict_classification_c1 snapAW snapBW marioKey rMarioSdW rMarioLocW
      (by decide) (by decide)).1).mpr (by decide)⟩

/-- Claim C2 counterexample: for snapshot A mapping "mario" to (mtime 100,
".sav") and B mapping "mario" to (mtime 100.5, ".srm"), the pair IS classified
as a conflict by `compare_folders` — it is not omitted from the DifferenceSet. -/
theorem mario_pair_in_conflicts_c2_cex :
    Conflict.mk marioKey rC2sd rC2loc ∈ (compare_folders snapC2A snapC2B).conflicts := by
  decide

/-- Claim C2 amended: for that input pair, `compare_folders` classifies the
pair as a conflict (the extension mismatch alone forces this, despite
Δ = 0.5 ≤ ε); the resulting DifferenceSet is exactly that single conflict. -/
theorem mario_pair_conflict_c2_amended :
    compare_folders snapC2A snapC2B =
      ⟨[], [], [Conflict.mk marioKey rC2sd rC2loc]⟩ := by
  decide

/-- Claim C5: the comparator is symmetric: `onlyInA` of `compare(A,B)` equals
`onlyInB` of `compare(B,A)` and vice versa, and the two conflict lists are
equal element-for-element after swapping the two record fields of each conflict. -/
theorem compare_symmetric_c5 (A B : Snapshot) :
    (compare_folders A B).sd_only = (compare_folders B A).local_only ∧
    (compare_folders A B).local_only = (compare_folders B A).sd_only ∧
    (compare_folders B A).conflicts =
      (compare_folders A B).conflicts.map swapConflict := by
  have e1 : onlyBFun B A = onlyAFun A B := funext (onlyBFun_swap A B)
  have e2 : onlyAFun B A = onlyBFun A B := funext (onlyAFun_swap A B)
  have e3 : confFun B A = fun b => (confFun A B b).map swapConflict :=
    funext (confFun_swap A B)
  rw [compare_folders_eq A B, compare_folders_eq B A, sortedKeys_comm B A, e1, e2, e3]
  refine ⟨rfl, rfl, ?_⟩
  rw [List.map_filterMap]

theorem sync_sd_to_local_single_conflict (scripts_dir : PyStr) (oracle : Oracle)
    (c : Conflict) :
    sync_sd_to_local scripts_dir oracle ⟨[], [], [c]⟩ =
      if c.loc.mtime < c.sd.mtime then
        match run_conversion_script scripts_dir savToSrmScript c.sd.path
            (conflictLocalTarget c.basename)
            (oracle savToSrmScript c.sd.path (conflictLocalTarget c.basename)) with
        | .ok _ =>
          ([SyncAction.resolved c.basename c.sd.path (conflictLocalTarget c.basename)], 1)
        | .error e => ([SyncAction.resolveError c.basename e], 0)
      else if c.sd.ext = savExt ∧ c.loc.ext = srmExt ∧
          pyAbs (c.sd.mtime - c.loc.mtime) ≤ 1 then
        ([SyncAction.skipSynced c.basename], 0)
      else ([SyncAction.skipOtherSide c.basename], 0) := by
  show (if c.loc.mtime < c.sd.mtime then _ else _) = _
  split
  · cases run_conversion_script scripts_dir savToSrmScript c.sd.path
      (conflictLocalTarget c.basename)
      (oracle savToSrmScript c.sd.path (conflictLocalTarget c.basename)) <;> rfl
  · split <;> rfl

/-- Claim C3 counterexample: the mario pair with SD (.sav) newer than local
(.srm) by only 0.5 s is a genuine conflict, and `sync_sd_to_local` CONVERTS it
(one processed item) rather than skipping it, although the two mtimes differ
by at most ε with the card-native/local-native extension pattern. -/
theorem within_eps_converted_c3_cex :
    Conflict.mk marioKey cflC3.sd cflC3.loc ∈
      (compare_folders [(marioKey, cflC3.sd)] [(marioKey, cflC3.loc)]).conflicts ∧
    sync_sd_to_local [] okOracle ⟨[], [], [cflC3]⟩ =
      ([SyncAction.resolved marioKey cflC3.sd.path (conflictLocalTarget marioKey)], 1) :=
  ⟨by decide, by decide⟩

/-- Claim C3 amended: in direction SD→local a conflict triggers a conversion
attempt exactly when the SD record is strictly newer than the local one by ANY
positive amount (not "by more than ε"); the within-ε sav/srm pair is skipped
as already-synchronized only when SD is not strictly newer. -/
theorem conflict_conversion_rule_c3_amended (scripts_dir : PyStr) (oracle : Oracle)
    (c : Conflict) :
    (((sync_sd_to_local scripts_dir oracle ⟨[], [], [c]⟩).1.any attemptsConversion) = true ↔
      c.loc.mtime < c.sd.mtime) ∧
    (c.sd.mtime ≤ c.loc.mtime → c.sd.ext = savExt → c.loc.ext = srmExt →
      pyAbs (c.sd.mtime - c.loc.mtime) ≤ 1 →
      sync_sd_to_local scripts_dir oracle ⟨[], [], [c]⟩ =
        ([SyncAction.skipSynced c.basename], 0)) := by
  refine ⟨?_, ?_⟩
  · rw [sync_sd_to_local_single_conflict]
    by_cases hlt : c.loc.mtime < c.sd.mtime
    · rw [if_pos hlt]
      refine ⟨fun _ => hlt, fun _ => ?_⟩
      cases hres : run_conversion_script scripts_dir savToSrmScript c.sd.path
          (conflictLocalTarget c.basename)
          (oracle savToSrmScript c.sd.path (conflictLocalTarget c.basename)) <;>
        simp [hres, attemptsConversion]
    · rw [if_neg hlt]
      by_cases h2 : c.sd.ext = savExt ∧ c.loc.ext = srmExt ∧
          pyAbs (c.sd.mtime - c.loc.mtime) ≤ 1 <;>
        simp [h2, attemptsConversion, hlt]
  · intro h1 h2 h3 h4
    rw [sync_sd_to_local_single_conflict, if_neg (not_lt.mpr h1), if_pos ⟨h2, h3, h4⟩]

/-- Witness for the amended C3 rule: a conflict with SD older by 0.5 s and the
sav/srm extension pattern is skipped as already-synchronized. -/
theorem conflict_conversion_rule_c3_w :
    cflC3skip.sd.mtime ≤ cflC3skip.loc.mtime ∧ cflC3skip.sd.ext = savExt ∧
    cflC3skip.loc.ext = srmExt ∧ pyAbs (cflC3skip.sd.mtime - cflC3skip.loc.mtime) ≤ 1 ∧
    sync_sd_to_local [] okOracle ⟨[], [], [cflC3skip]⟩ =
      ([SyncAction.skipSynced marioKey], 0) :=
  ⟨by decide, by decide, by decide, by decide,
    (conflict_conversion_rule_c3_amended [] okOracle cflC3skip).2
      (by decide) (by decide) (by decide) (by decide)⟩

/-- Claim C4: for a conflict with SD mtime 200 and local mtime 100 and a
succeeding conversion tool, `sync_sd_to_local` converts it and reports one
processed item, while `sync_local_to_sd` on the same DifferenceSet skips it
and reports zero processed items. -/
theorem newer_sd_conflict_counts_c4 :
    sync_sd_to_local [] okOracle ⟨[], [], [cflC4]⟩ =
      ([SyncAction.resolved marioKey cflC4.sd.path (conflictLocalTarget marioKey)], 1) ∧
    sync_local_to_sd [] okOracle ⟨[], [], [cflC4]⟩ =
      ([SyncAction.skipOtherSide marioKey], 0) :=
  ⟨by decide, by decide⟩

/-- Claim C6: a nonzero exit status makes the invoker fail with an error whose
message carries the trimmed stderr and stdout of the child, and the sync
director treats each item independently: the failing item is reported as
failed (not counted as processed) while a subsequent item in the same batch is
still converted successfully. -/
theorem conversion_error_isolation_c6 (scripts_dir script input output out err : PyStr)
    (rc : Int) (hrc : rc ≠ 0) (herr : pyStrip err ≠ []) (hout : pyStrip out ≠ []) :
    (∃ p q, run_conversion_script scripts_dir script input output (.ran rc out err) =
      .error (p ++ pyStrip err ++ q ++ pyStrip out)) ∧
    (∀ (oracle : Oracle) (f1 f2 : FileRecord),
      oracle savToSrmScript f1.path (sdOnlyTarget f1) = .ran rc out err →
      oracle savToSrmScript f2.path (sdOnlyTarget f2) = .ran 0 [] [] →
      ∃ e, sync_sd_to_local scripts_dir oracle ⟨[f1, f2], [], []⟩ =
        ([SyncAction.copyError f1.path (sdOnlyTarget f1) e,
          SyncAction.copied f2.path (sdOnlyTarget f2)], 1)) := by
  constructor
  · refine ⟨"Failed to run conversion command: ".toList ++
      ("Conversion failed for ".toList ++ pyBasename input ++ " -> ".toList ++
        pyBasename output ++ "  using ".toList ++ script ++ ".\n".toList ++
        "Stderr: ".toList),
      "\n".toList ++ "Stdout: ".toList, ?_⟩
    show (if rc ≠ 0 then _ else _) = _
    rw [if_pos hrc]
    unfold failedCmdMsg conversionFailedMsg pyOrElse
    rw [if_neg herr, if_neg hout]
    simp [List.append_assoc]
  · intro oracle f1 f2 h1 h2
    refine ⟨failedCmdMsg (conversionFailedMsg savToSrmScript f1.path (sdOnlyTarget f1)
      out err), ?_⟩
    unfold sync_sd_to_local
    simp only [List.foldl_cons, List.foldl_nil, h1, h2]
    simp [run_conversion_script, hrc]

/-- Witness for C6: under an oracle that fails the first SD-only item with
exit 1 and succeeds on the second, the first is reported as failed, the second
is copied, and the processed count is 1. -/
theorem conversion_error_isolation_c6_w :
    (1 : Int) ≠ 0 ∧ pyStrip errW ≠ [] ∧ pyStrip outW ≠ [] ∧
    (∃ e, sync_sd_to_local [] oracleW ⟨[f1W, f2W], [], []⟩ =
      ([SyncAction.copyError f1W.path (sdOnlyTarget f1W) e,
        SyncAction.copied f2W.path (sdOnlyTarget f2W)], 1)) :=
  ⟨by decide, by decide, by decide,
    (conversion_error_isolation_c6 [] savToSrmScript f1W.path (sdOnlyTarget f1W)
      outW errW 1 (by decide) (by decide) (by decide)).2 oracleW f1W f2W
      (by decide) (by decide)⟩

/-- Claim C9 counterexample: the accepted file ".gba.sav" has extension ".sav"
and remaining name ".gba", which ends in the platform-tag segment, yet the tag
is NOT stripped (CPython splitext refuses to split a stem of leading dots):
the stored key is ".gba", and the key "" that stripping would produce is
absent. -/
theorem dotted_gba_key_c9_cex :
    get_file_info SD_CARD_SAVES_PATH (some [⟨dotGbaSavName, true, some 5⟩]) [savExt] =
      [(gbaTag, ⟨pathJoin SD_CARD_SAVES_PATH dotGbaSavName, 5, savExt⟩)] ∧
    dictGet [] (get_file_info SD_CARD_SAVES_PATH
      (some [⟨dotGbaSavName, true, some 5⟩]) [savExt]) = none :=
  ⟨by decide, by decide⟩

/-- Claim C9 amended: for EVERY accepted file the stored key is the
lower-cased remaining name after removing the matched extension; when the
extension is ".sav" (case-insensitively) and the remaining name ends in a
".gba" segment (case-insensitively) preceded by at least one non-dot
character, that segment is stripped first; when the segment is preceded only
by dots (e.g. ".gba.sav"), splitext declines to split and the remaining name
is kept unstripped. -/
theorem key_derivation_c9_amended (dir : PyStr) (exts : List PyStr) (acc : Snapshot)
    (f : DirEntry) (m : ℚ) (np ex : PyStr)
    (hpre : startsDotUnderscore f.name = false)
    (hsplit : splitext f.name = (np, ex))
    (hfilter : exts = [] ∨ pyLower ex ∈ exts.map pyLower)
    (hfile : f.isFile = true) (hm : f.mtime = some m) :
    (¬ (pyLower ex = savExt ∧ gbaTag <:+ pyLower np) →
      scanEntry dir exts acc f =
        dictInsert (pyLower np) ⟨pathJoin dir f.name, m, pyLower ex⟩ acc) ∧
    (∀ (stem : PyStr) (c1 c2 c3 : Char), pyLower ex = savExt →
      np = stem ++ '.' :: [c1, c2, c3] →
      c1.toLower = 'g' → c2.toLower = 'b' → c3.toLower = 'a' → '/' ∉ np →
      (∃ c ∈ stem, ¬ (c = '.')) →
      scanEntry dir exts acc f =
        dictInsert (pyLower stem) ⟨pathJoin dir f.name, m, pyLower ex⟩ acc) ∧
    (∀ (stem : PyStr) (c1 c2 c3 : Char), pyLower ex = savExt →
      np = stem ++ '.' :: [c1, c2, c3] →
      c1.toLower = 'g' → c2.toLower = 'b' → c3.toLower = 'a' → '/' ∉ np →
      (∀ c ∈ stem, c = '.') →
      scanEntry dir exts acc f =
        dictInsert (pyLower np) ⟨pathJoin dir f.name, m, pyLower ex⟩ acc) := by
  have h1 : ¬ (startsDotUnderscore f.name = true) := by
    rw [hpre]
    exact Bool.false_ne_true
  have h2 : ¬ (exts ≠ [] ∧ pyLower ex ∉ exts.map pyLower) := by
    rcases hfilter with h | h
    · exact fun hh => hh.1 h
    · exact fun hh => hh.2 h
  refine ⟨?_, ?_, ?_⟩
  · intro hnc
    unfold scanEntry
    rw [if_neg h1, hsplit]
    simp only
    rw [if_neg h2]
    simp [hfile, hm, hnc]
  · intro stem c1 c2 c3 hsav hnp hc1 hc2 hc3 hslash hstem
    have hplow : pyLower np = pyLower stem ++ '.' :: ['g', 'b', 'a'] := by
      rw [hnp, pyLower_append]
      unfold pyLower
      simp [hc1, hc2, hc3]
    have hsuffix : gbaTag <:+ pyLower np := ⟨pyLower stem, by rw [hplow]; rfl⟩
    have hnodot : '.' ∉ [c1, c2, c3] := by
      intro hmem
      rcases List.mem_cons.mp hmem with h | hmem'
      · rw [← h] at hc1
        exact absurd hc1 (by decide)
      rcases List.mem_cons.mp hmem' with h | hmem''
      · rw [← h] at hc2
        exact absurd hc2 (by decide)
      rcases List.mem_cons.mp hmem'' with h | hmem'''
      · rw [← h] at hc3
        exact absurd hc3 (by decide)
      · exact absurd hmem''' (List.not_mem_nil _)
    have hall : ¬ (stem.all (fun c => c = '.') = true) := by
      intro hall
      rcases hstem with ⟨c, hcmem, hcne⟩
      exact hcne (by simpa using List.all_eq_true.mp hall c hcmem)
    have hsplitnp : splitext np = (stem, '.' :: [c1, c2, c3]) := by
      rw [splitext_noSlash hslash]
      unfold splitextFile
      rw [hnp, lastDotSplit_append stem _ hnodot]
      simp [hall]
    unfold scanEntry
    rw [if_neg h1, hsplit]
    simp only
    rw [if_neg h2]
    simp [hsav, hsuffix, hsplitnp, hfile, hm]
  · intro stem c1 c2 c3 hsav hnp hc1 hc2 hc3 hslash hdots
    have hplow : pyLower np = pyLower stem ++ '.' :: ['g', 'b', 'a'] := by
      rw [hnp, pyLower_append]
      unfold pyLower
      simp [hc1, hc2, hc3]
    have hsuffix : gbaTag <:+ pyLower np := ⟨pyLower stem, by rw [hplow]; rfl⟩
    have hnodot : '.' ∉ [c1, c2, c3] := by
      intro hmem
      rcases List.mem_cons.mp hmem with h | hmem'
      · rw [← h] at hc1
        exact absurd hc1 (by decide)
      rcases List.mem_cons.mp hmem' with h | hmem''
      · rw [← h] at hc2
        exact absurd hc2 (by decide)
      rcases List.mem_cons.mp hmem'' with h | hmem'''
      · rw [← h] at hc3
        exact absurd hc3 (by decide)
      · exact absurd hmem''' (List.not_mem_nil _)
    have hall : stem.all (fun c => c = '.') = true :=
      List.all_eq_true.mpr (fun c hc => by simpa using hdots c hc)
    have hsplitnp : splitext np = (np, []) := by
      rw [splitext_noSlash hslash]
      unfold splitextFile
      rw [show lastDotSplit np = some (stem, '.' :: [c1, c2, c3]) from by
        rw [hnp]
        exact lastDotSplit_append stem _ hnodot]
      simp [hall]
    unfold scanEntry
    rw [if_neg h1, hsplit]
    simp only
    rw [if_neg h2]
    simp [hsav, hsuffix, hsplitnp, hfile, hm]

/-- Witness for the amended C9: "my_game.gba.sav" is stored under the key
"my_game" (tag stripped, second conjunct), and "my_game.srm" yields the very
same key through the general no-strip rule (first conjunct). -/
theorem key_derivation_c9_w :
    startsDotUnderscore myGameGbaSav.name = false ∧
    startsDotUnderscore myGameSrm.name = false ∧
    scanEntry SD_CARD_SAVES_PATH [savExt] [] myGameGbaSav =
      dictInsert myGameKey
        ⟨pathJoin SD_CARD_SAVES_PATH myGameGbaSav.name, 3, savExt⟩ [] ∧
    scanEntry "/tmp/l".toList [srmExt] [] myGameSrm =
      dictInsert myGameKey
        ⟨pathJoin "/tmp/l".toList myGameSrm.name, 3, srmExt⟩ [] :=
  ⟨by decide, by decide,
    (key_derivation_c9_amended SD_CARD_SAVES_PATH [savExt] [] myGameGbaSav 3
      "my_game.gba".toList savExt (by decide) (by decide) (Or.inr (by decide))
      (by decide) (by decide)).2.1 "my_game".toList 'g' 'b' 'a'
      (by decide) (by decide) (by decide) (by decide) (by decide) (by decide)
      ⟨'m', by decide, by decide⟩,
    (key_derivation_c9_amended "/tmp/l".toList [srmExt] [] myGameSrm 3
      "my_game".toList srmExt (by decide) (by decide) (Or.inr (by decide))
      (by decide) (by decide)).1 (by decide)⟩

/-- Claim C10: every FileRecord stored in a snapshot has a lower-cased
extension field, so the comparator extension test and the sync director
".sav"/".srm" rule behave case-insensitively with respect to on-disk casing:
"GAME.GBA.SAV" and "game.gba.sav" produce records with identical key and
extension, and comparing their snapshots reports nothing at all. -/
theorem stored_ext_lowercased_c10 :
    (∀ (dir : PyStr) (L : List DirEntry) (exts : List PyStr) (k : PyStr) (r : FileRecord),
      dictGet k (get_file_info dir (some L) exts) = some r → pyLower r.ext = r.ext) ∧
    compare_folders snapUpperW snapLowerW = ⟨[], [], []⟩ :=
  ⟨fun dir L exts => get_file_info_ext_lowered dir L exts, by decide⟩

/-- Witness for C10: the record scanned from "GAME.GBA.SAV" is stored under
key "game" with extension ".sav", and its extension is a fixed point of
lower-casing. -/
theorem stored_ext_lowercased_c10_w :
    dictGet "game".toList snapUpperW =
      some ⟨pathJoin SD_CARD_SAVES_PATH "GAME.GBA.SAV".toList, 7, savExt⟩ ∧
    pyLower savExt = savExt :=
  ⟨by decide,
    stored_ext_lowercased_c10.1 SD_CARD_SAVES_PATH [upperEntry] [savExt]
      "game".toList ⟨pathJoin SD_CARD_SAVES_PATH "GAME.GBA.SAV".toList, 7, savExt⟩
      (by decide)⟩
